import Mathlib

/-!
Shallow embedding of the room session & synchronization protocol of the
SyncStream watch-together application: the socket server `src/server.js`
(room registry, join/disconnect/host-failover, chat relay, host-only video
operations) and the guest-side sync-state application `applyState` of
`src/src/components/video/VideoPlayerWrapper.tsx`.

Conventions of the embedding:
* JavaScript `Map`s are association lists in insertion order: `Map.set`
  updates in place when the key is present and appends otherwise;
  `Map.delete` removes the entry of the key.
* Room ids are taken after `decodeURIComponent`, which every handler applies
  once at entry.
* socket.io facts used by the model: each live connection has a unique id
  that is never reused; `socket.join r` adds the socket to io-room `r`; by
  the time the `disconnect` handler runs the socket has left all io-rooms;
  `io.to r` addresses every socket currently in io-room `r`, and
  `socket.to r` every one of them but the sender.
* The durable store (one `server_data/rooms/<id>.json` per room) is the
  `files` map; `saveRoomData` / `loadRoomData` / `deleteRoomData` are no-ops
  on an empty room id (their `if (!roomId) return` guards), and I/O never
  fails in the model, matching the code's log-and-swallow error policy.
* JS truthiness tests on strings (`if (currentRoomId ...)`,
  `if (targetSocketId)`, `if (...hostSocketId)`) are `≠ ""` tests on the
  model's strings; `null`/`undefined` is `Option.none`.
* Message payloads the server only forwards (chat envelopes, control
  payloads, sync-state payloads) are opaque strings.
-/

namespace SyncStream

/-- JS `Map.get k` on an insertion-ordered association list. -/
def lookupA {α : Type} (l : List (String × α)) (k : String) : Option α :=
  match l with
  | [] => none
  | (k₀, v) :: t => if k₀ = k then some v else lookupA t k

/-- JS `Map.set k v`: update in place when present, append otherwise. -/
def setA {α : Type} (l : List (String × α)) (k : String) (v : α) :
    List (String × α) :=
  match l with
  | [] => [(k, v)]
  | (k₀, v₀) :: t => if k₀ = k then (k, v) :: t else (k₀, v₀) :: setA t k v

/-- JS `Map.delete k`: drop the entry of `k`. -/
def eraseA {α : Type} (l : List (String × α)) (k : String) :
    List (String × α) :=
  match l with
  | [] => []
  | (k₀, v₀) :: t => if k₀ = k then t else (k₀, v₀) :: eraseA t k

/-- The keys of an association list, in insertion order. -/
def keysA {α : Type} (l : List (String × α)) : List String := l.map Prod.fst

/-- One room of the registry: `{ users, password, currentVideoUrl,
currentVideoFileName, hostSocketId }` (src/server.js line 17).  `users` maps
socket id to username, in insertion order. -/
structure RoomData : Type where
  users : List (String × String)
  password : String
  currentVideoUrl : Option String
  currentVideoFileName : Option String
  hostSocketId : String
deriving DecidableEq, Repr

/-- The whole server state: the in-memory registry `rooms`, the durable
per-room records `files`, the per-connection `currentRoomId` variables
`sessions` (whose keys are the currently connected sockets), the socket.io
room occupancy `ioRooms`, and the set `allSids` of socket ids ever issued
(socket.io never reuses an id). -/
structure ServerState : Type where
  rooms : List (String × RoomData)
  files : List (String × RoomData)
  sessions : List (String × Option String)
  ioRooms : List (String × List String)
  allSids : List String
deriving DecidableEq, Repr

def initState : ServerState := ⟨[], [], [], [], []⟩

/-- `socket.join r`. -/
def ioJoin (l : List (String × List String)) (r sid : String) :
    List (String × List String) :=
  match lookupA l r with
  | some ms => if sid ∈ ms then l else setA l r (ms ++ [sid])
  | none => setA l r [sid]

/-- On disconnect, the socket leaves every io-room. -/
def ioLeaveAll (l : List (String × List String)) (sid : String) :
    List (String × List String) :=
  l.map (fun p => (p.1, p.2.filter (fun m => m != sid)))

/-- The sockets currently in io-room `r` (`io.to r` addresses these). -/
def ioMembers (l : List (String × List String)) (r : String) : List String :=
  (lookupA l r).getD []

/-- `saveRoomData`: full-record overwrite, no-op on an empty room id. -/
def saveRoomData (files : List (String × RoomData)) (roomId : String)
    (rd : RoomData) : List (String × RoomData) :=
  if roomId = "" then files else setA files roomId rd

/-- `loadRoomData`: read the durable record, none on an empty room id or a
missing file. -/
def loadRoomData (files : List (String × RoomData)) (roomId : String) :
    Option RoomData :=
  if roomId = "" then none else lookupA files roomId

/-- `deleteRoomData`: remove the durable record, no-op on an empty room id. -/
def deleteRoomData (files : List (String × RoomData)) (roomId : String) :
    List (String × RoomData) :=
  if roomId = "" then files else eraseA files roomId

/-- The outbound messages of src/server.js, tagged by constructor; each is
paired with the recipient socket id when emitted. -/
inductive ServerMsg : Type
  | joinError (message : String)
  | roomJoined (roomId : String) (isHost : Bool)
      (currentVideoUrl currentVideoFileName : Option String)
      (users : List String)
  | userJoined (userId username : String) (users : List String)
  | userLeft (userId : String) (username : Option String)
      (users : List String)
  | promotedToHost
  | newHost (hostSocketId hostUsername : String)
  | videoSelected (videoUrl fileName : String)
  | videoControlled (control : String)
  | hostProvideSyncState (requesterSocketId : String)
  | applyHostSyncState (state : String)
  | newMessage (messageData : String)
  | errorEvent (message : String)
deriving DecidableEq, Repr

/-- The `for (const [id, userObj] of roomData.users.entries())` scan of the
`join_room` handler: the first entry whose socket id is the caller's or
whose username is the caller's (the loop `break`s at the first match). -/
def findExisting (users : List (String × String)) (sid username : String) :
    Option (String × String) :=
  users.find? (fun e => e.1 == sid || e.2 == username)

/-- The `join_room` handler (src/server.js lines 102-180).  Sets
`currentRoomId`, resolves the room from memory or file, then: password
check, existing-user scan with the username-collision merge, capacity
check, admission, persistence, and the `room_joined` / `user_joined`
emissions.  Returns the new state and the emitted `(recipient, message)`
list in emission order. -/
def handleJoinRoom (st : ServerState) (sid roomId password username : String) :
    ServerState × List (String × ServerMsg) :=
  let sessions1 := setA st.sessions sid (some roomId)
  match (lookupA st.rooms roomId).orElse
      (fun _ => loadRoomData st.files roomId) with
  | some rd0 =>
    let rooms1 := if (lookupA st.rooms roomId).isSome then st.rooms
      else setA st.rooms roomId rd0
    if rd0.password ≠ password then
      ({ st with rooms := rooms1, sessions := setA sessions1 sid none },
        [(sid, ServerMsg.joinError "Invalid password.")])
    else
      match findExisting rd0.users sid username with
      | some e =>
        let rd1 :=
          if e.1 ≠ sid ∧ e.2 = username then
            { rd0 with
              users := setA (eraseA rd0.users e.1) sid username
              hostSocketId :=
                if rd0.hostSocketId = e.1 then sid else rd0.hostSocketId }
          else rd0
        ({ st with
            rooms := setA rooms1 roomId rd1
            files := saveRoomData st.files roomId rd1
            sessions := sessions1
            ioRooms := ioJoin st.ioRooms roomId sid },
          [(sid, ServerMsg.roomJoined roomId (sid == rd1.hostSocketId)
            rd1.currentVideoUrl rd1.currentVideoFileName
            (rd1.users.map Prod.snd))])
      | none =>
        if rd0.users.length ≥ 2 then
          ({ st with rooms := rooms1, sessions := setA sessions1 sid none },
            [(sid, ServerMsg.joinError "Room is full.")])
        else
          let rd1 := { rd0 with users := setA rd0.users sid username }
          let iorooms1 := ioJoin st.ioRooms roomId sid
          ({ st with
              rooms := setA rooms1 roomId rd1
              files := saveRoomData st.files roomId rd1
              sessions := sessions1
              ioRooms := iorooms1 },
            (sid, ServerMsg.roomJoined roomId (sid == rd1.hostSocketId)
              rd1.currentVideoUrl rd1.currentVideoFileName
              (rd1.users.map Prod.snd))
            :: ((ioMembers iorooms1 roomId).filter (fun m => m != sid)).map
              (fun m => (m, ServerMsg.userJoined sid username
                (rd1.users.map Prod.snd))))
  | none =>
    let rd1 : RoomData :=
      { users := [(sid, username)], password := password,
        currentVideoUrl := none, currentVideoFileName := none,
        hostSocketId := sid }
    ({ st with
        rooms := setA st.rooms roomId rd1
        files := saveRoomData st.files roomId rd1
        sessions := sessions1
        ioRooms := ioJoin st.ioRooms roomId sid },
      [(sid, ServerMsg.roomJoined roomId true none none [username])])

/-- The `disconnect` handler (src/server.js lines 233-262).  The socket has
already left every io-room; the handler acts only when the socket's
`currentRoomId` is truthy and names a registered room: it removes the user,
broadcasts `user_left`, deletes an emptied room from memory and disk, and
otherwise reassigns the host to the first remaining member when the host
left. -/
def handleDisconnect (st : ServerState) (sid : String) :
    ServerState × List (String × ServerMsg) :=
  let cur := (lookupA st.sessions sid).getD none
  let sessions1 := eraseA st.sessions sid
  let iorooms1 := ioLeaveAll st.ioRooms sid
  let truthyCur := match cur with
    | some r => if r = "" then none else some r
    | none => none
  match truthyCur with
  | none => ({ st with sessions := sessions1, ioRooms := iorooms1 }, [])
  | some roomId =>
    match lookupA st.rooms roomId with
    | none => ({ st with sessions := sessions1, ioRooms := iorooms1 }, [])
    | some room =>
      let disconnectedUser := lookupA room.users sid
      let users1 := eraseA room.users sid
      let leftMsgs := (ioMembers iorooms1 roomId).map
        (fun m => (m, ServerMsg.userLeft sid disconnectedUser
          (users1.map Prod.snd)))
      if users1 = [] then
        ({ st with
            rooms := eraseA st.rooms roomId
            files := deleteRoomData st.files roomId
            sessions := sessions1, ioRooms := iorooms1 }, leftMsgs)
      else if sid = room.hostSocketId then
        match users1 with
        | [] =>
          ({ st with
              rooms := setA st.rooms roomId { room with users := users1 }
              files := saveRoomData st.files roomId { room with users := users1 }
              sessions := sessions1, ioRooms := iorooms1 }, leftMsgs)
        | nh :: _ =>
          let room1 := { room with users := users1, hostSocketId := nh.1 }
          ({ st with
              rooms := setA st.rooms roomId room1
              files := saveRoomData st.files roomId room1
              sessions := sessions1, ioRooms := iorooms1 },
            leftMsgs ++ (nh.1, ServerMsg.promotedToHost)
              :: (ioMembers iorooms1 roomId).map
                (fun m => (m, ServerMsg.newHost nh.1 nh.2)))
      else
        ({ st with
            rooms := setA st.rooms roomId { room with users := users1 }
            files := saveRoomData st.files roomId { room with users := users1 }
            sessions := sessions1, ioRooms := iorooms1 }, leftMsgs)

/-- The `send_message` handler (src/server.js lines 182-187): fan the opaque
envelope out to everyone in the io-room, sender included, when the sender is
a member of the registered room. -/
def handleSendMessage (st : ServerState) (sid roomId messageData : String) :
    ServerState × List (String × ServerMsg) :=
  match lookupA st.rooms roomId with
  | some room =>
    if (lookupA room.users sid).isSome then
      (st, (ioMembers st.ioRooms roomId).map
        (fun m => (m, ServerMsg.newMessage messageData)))
    else (st, [])
  | none => (st, [])

/-- The `video_select` handler (src/server.js lines 189-200): host-only
descriptor update, persisted and broadcast to the whole io-room; a non-host
caller gets a targeted `error_event`. -/
def handleVideoSelect (st : ServerState) (sid roomId videoUrl fileName : String) :
    ServerState × List (String × ServerMsg) :=
  match lookupA st.rooms roomId with
  | some room =>
    if room.hostSocketId = sid then
      let room1 := { room with
        currentVideoUrl := some videoUrl
        currentVideoFileName := some fileName }
      ({ st with
          rooms := setA st.rooms roomId room1
          files := saveRoomData st.files roomId room1 },
        (ioMembers st.ioRooms roomId).map
          (fun m => (m, ServerMsg.videoSelected videoUrl fileName)))
    else (st, [(sid, ServerMsg.errorEvent "Only the host can select a video.")])
  | none => (st, [(sid, ServerMsg.errorEvent "Only the host can select a video.")])

/-- The `video_control` handler (src/server.js lines 202-207): when the
sender is the registered room's host, relay the opaque control payload to
every io-room member but the sender (`socket.to`); otherwise do nothing at
all. -/
def handleVideoControl (st : ServerState) (sid roomId control : String) :
    ServerState × List (String × ServerMsg) :=
  match lookupA st.rooms roomId with
  | some room =>
    if room.hostSocketId = sid then
      (st, ((ioMembers st.ioRooms roomId).filter (fun m => m != sid)).map
        (fun m => (m, ServerMsg.videoControlled control)))
    else (st, [])
  | none => (st, [])

/-- The `request_resync` handler (src/server.js lines 209-216). -/
def handleRequestResync (st : ServerState) (sid roomId : String) :
    ServerState × List (String × ServerMsg) :=
  match lookupA st.rooms roomId with
  | some room =>
    if (lookupA room.users sid).isSome ∧ room.hostSocketId ≠ sid then
      if room.hostSocketId ≠ "" then
        (st, [(room.hostSocketId, ServerMsg.hostProvideSyncState sid)])
      else (st, [])
    else (st, [])
  | none => (st, [])

/-- The `host_sync_state_update` handler (src/server.js lines 218-231):
host-only; with a truthy target, deliver to that one socket, otherwise to
every users-map member but the host. -/
def handleHostSyncStateUpdate (st : ServerState) (sid roomId state : String)
    (targetSocketId : Option String) : ServerState × List (String × ServerMsg) :=
  match lookupA st.rooms roomId with
  | some room =>
    if room.hostSocketId = sid then
      match targetSocketId with
      | some t =>
        if t ≠ "" then (st, [(t, ServerMsg.applyHostSyncState state)])
        else (st, (room.users.filter (fun e => e.1 != sid)).map
          (fun e => (e.1, ServerMsg.applyHostSyncState state)))
      | none => (st, (room.users.filter (fun e => e.1 != sid)).map
          (fun e => (e.1, ServerMsg.applyHostSyncState state)))
    else (st, [])
  | none => (st, [])

/-- The inbound events of the protocol, tagged with the emitting socket. -/
inductive Event : Type
  | connect (sid : String)
  | join (sid roomId password username : String)
  | sendMessage (sid roomId messageData : String)
  | videoSelect (sid roomId videoUrl fileName : String)
  | videoControl (sid roomId control : String)
  | requestResync (sid roomId : String)
  | hostSyncStateUpdate (sid roomId state : String)
      (targetSocketId : Option String)
  | disconnect (sid : String)
deriving DecidableEq, Repr

/-- One server reaction.  Handlers only exist for connected sockets, so an
event of a socket with no session is a no-op; a `connect` of an id already
issued is impossible for socket.io and is likewise a no-op. -/
def step (st : ServerState) (e : Event) : ServerState × List (String × ServerMsg) :=
  match e with
  | .connect sid =>
    if sid ∈ st.allSids then (st, [])
    else ({ st with
        sessions := setA st.sessions sid none
        allSids := st.allSids ++ [sid] }, [])
  | .join sid roomId password username =>
    if sid ∈ keysA st.sessions then handleJoinRoom st sid roomId password username
    else (st, [])
  | .sendMessage sid roomId messageData =>
    if sid ∈ keysA st.sessions then handleSendMessage st sid roomId messageData
    else (st, [])
  | .videoSelect sid roomId videoUrl fileName =>
    if sid ∈ keysA st.sessions then handleVideoSelect st sid roomId videoUrl fileName
    else (st, [])
  | .videoControl sid roomId control =>
    if sid ∈ keysA st.sessions then handleVideoControl st sid roomId control
    else (st, [])
  | .requestResync sid roomId =>
    if sid ∈ keysA st.sessions then handleRequestResync st sid roomId
    else (st, [])
  | .hostSyncStateUpdate sid roomId state targetSocketId =>
    if sid ∈ keysA st.sessions then
      handleHostSyncStateUpdate st sid roomId state targetSocketId
    else (st, [])
  | .disconnect sid =>
    if sid ∈ keysA st.sessions then handleDisconnect st sid
    else (st, [])

/-- The state after a whole event trace, from a fresh server. -/
def run (events : List Event) : ServerState :=
  events.foldl (fun st e => (step st e).1) initState

/-- The states an actual run of the server can be in. -/
def Reachable (st : ServerState) : Prop := ∃ events, run events = st

/-- One primitive effect on the guest's media surface, in program order;
`settleTimeout` marks the `setTimeout(..., 150)` settling delay whose
callback holds the commands after it. -/
inductive PlayerCmd : Type
  | seekTo (seconds : Rat)
  | setPlayedSeconds (seconds : Rat)
  | settleTimeout (ms : Nat)
  | play
  | pause
  | setIsPlaying (playing : Bool)
deriving DecidableEq, Repr

/-- `applyState` of VideoPlayerWrapper.tsx (lines 69-88): when the player
ref is live, seek to the given time, record it, and only after the 150 ms
settling timeout assert play or pause per `state.playing` and record the
playing flag.  The returned list is the command sequence in execution
order. -/
def applyState (playerReady : Bool) (time : Rat) (playing : Bool) :
    List PlayerCmd :=
  if playerReady then
    [PlayerCmd.seekTo time, PlayerCmd.setPlayedSeconds time,
      PlayerCmd.settleTimeout 150]
    ++ (if playing then [PlayerCmd.play] else [PlayerCmd.pause])
    ++ [PlayerCmd.setIsPlaying playing]
  else []

/-- `handleApplyHostSyncState` of src/src/app/room/[roomId]/page.tsx (lines
183-188): only a guest with a live player applies a received sync state. -/
def handleApplyHostSyncState (isHost playerReady : Bool) (time : Rat)
    (playing : Bool) : List PlayerCmd :=
  if isHost then [] else applyState playerReady time playing

/-! ## Association-list lemma kit -/

theorem keysA_nil {α : Type} : keysA ([] : List (String × α)) = [] := rfl

theorem keysA_cons {α : Type} (k₀ : String) (v₀ : α) (t : List (String × α)) :
    keysA ((k₀, v₀) :: t) = k₀ :: keysA t := rfl

theorem lookupA_setA_self {α : Type} (l : List (String × α)) (k : String) (v : α) :
    lookupA (setA l k v) k = some v := by
  induction l with
  | nil => simp [setA, lookupA]
  | cons p t ih =>
    obtain ⟨k₀, v₀⟩ := p
    by_cases h : k₀ = k
    · simp [setA, h, lookupA]
    · simp [setA, h, lookupA, ih]

theorem lookupA_setA_ne {α : Type} (l : List (String × α)) (k k' : String) (v : α)
    (h : k' ≠ k) : lookupA (setA l k v) k' = lookupA l k' := by
  have hkk : k ≠ k' := fun hc => h hc.symm
  induction l with
  | nil => simp [setA, lookupA, hkk]
  | cons p t ih =>
    obtain ⟨k₀, v₀⟩ := p
    by_cases hk : k₀ = k
    · subst hk
      simp [setA, lookupA, hkk]
    · simp only [setA, if_neg hk, lookupA]
      by_cases hk' : k₀ = k'
      · simp [hk']
      · simp [hk', ih]

theorem lookupA_eraseA_ne {α : Type} (l : List (String × α)) (k k' : String)
    (h : k' ≠ k) : lookupA (eraseA l k) k' = lookupA l k' := by
  have hkk : k ≠ k' := fun hc => h hc.symm
  induction l with
  | nil => simp [eraseA]
  | cons p t ih =>
    obtain ⟨k₀, v₀⟩ := p
    by_cases hk : k₀ = k
    · subst hk
      simp [eraseA, lookupA, hkk]
    · simp only [eraseA, if_neg hk, lookupA]
      by_cases hk' : k₀ = k'
      · simp [hk']
      · simp [hk', ih]

theorem lookupA_eq_none_of_not_mem {α : Type} (l : List (String × α)) (k : String)
    (h : k ∉ keysA l) : lookupA l k = none := by
  induction l with
  | nil => simp [lookupA]
  | cons p t ih =>
    obtain ⟨k₀, v₀⟩ := p
    rw [keysA_cons, List.mem_cons, not_or] at h
    have hne : k₀ ≠ k := fun hc => h.1 hc.symm
    simp only [lookupA, if_neg hne]
    exact ih h.2

theorem mem_keysA_of_lookupA {α : Type} (l : List (String × α)) (k : String) (v : α)
    (h : lookupA l k = some v) : k ∈ keysA l := by
  by_contra hc
  rw [lookupA_eq_none_of_not_mem l k hc] at h
  exact Option.noConfusion h

theorem lookupA_mem {α : Type} (l : List (String × α)) (k : String) (v : α)
    (h : lookupA l k = some v) : (k, v) ∈ l := by
  induction l with
  | nil => simp [lookupA] at h
  | cons p t ih =>
    obtain ⟨k₀, v₀⟩ := p
    by_cases hk : k₀ = k
    · rw [lookupA, if_pos hk] at h
      injection h with h
      subst hk
      subst h
      exact List.mem_cons_self _ _
    · rw [lookupA, if_neg hk] at h
      exact List.mem_cons_of_mem _ (ih h)

theorem eraseA_of_not_mem {α : Type} (l : List (String × α)) (k : String)
    (h : k ∉ keysA l) : eraseA l k = l := by
  induction l with
  | nil => simp [eraseA]
  | cons p t ih =>
    obtain ⟨k₀, v₀⟩ := p
    rw [keysA_cons, List.mem_cons, not_or] at h
    have hne : k₀ ≠ k := fun hc => h.1 hc.symm
    simp [eraseA, hne, ih h.2]

theorem lookupA_eraseA_self {α : Type} (l : List (String × α)) (k : String)
    (hnd : (keysA l).Nodup) : lookupA (eraseA l k) k = none := by
  induction l with
  | nil => simp [eraseA, lookupA]
  | cons p t ih =>
    obtain ⟨k₀, v₀⟩ := p
    rw [keysA_cons, List.nodup_cons] at hnd
    by_cases hk : k₀ = k
    · subst hk
      simp only [eraseA, if_pos rfl]
      exact lookupA_eq_none_of_not_mem t k₀ hnd.1
    · simp only [eraseA, if_neg hk, lookupA, if_neg hk]
      exact ih hnd.2

theorem keysA_setA_of_mem {α : Type} (l : List (String × α)) (k : String) (v : α)
    (h : k ∈ keysA l) : keysA (setA l k v) = keysA l := by
  induction l with
  | nil => simp [keysA_nil] at h
  | cons p t ih =>
    obtain ⟨k₀, v₀⟩ := p
    by_cases hk : k₀ = k
    · simp [setA, hk, keysA_cons]
    · rw [keysA_cons, List.mem_cons] at h
      rcases h with h | h
      · exact absurd h.symm hk
      · rw [setA, if_neg hk, keysA_cons, keysA_cons, ih h]

theorem keysA_setA_of_not_mem {α : Type} (l : List (String × α)) (k : String) (v : α)
    (h : k ∉ keysA l) : keysA (setA l k v) = keysA l ++ [k] := by
  induction l with
  | nil => simp [setA, keysA]
  | cons p t ih =>
    obtain ⟨k₀, v₀⟩ := p
    rw [keysA_cons, List.mem_cons, not_or] at h
    have hne : k₀ ≠ k := fun hc => h.1 hc.symm
    rw [setA, if_neg hne, keysA_cons, keysA_cons, ih h.2, List.cons_append]

theorem mem_keysA_setA {α : Type} (l : List (String × α)) (k a : String) (v : α) :
    a ∈ keysA (setA l k v) ↔ a ∈ keysA l ∨ a = k := by
  by_cases h : k ∈ keysA l
  · rw [keysA_setA_of_mem l k v h]
    constructor
    · exact Or.inl
    · rintro (ha | rfl)
      · exact ha
      · exact h
  · rw [keysA_setA_of_not_mem l k v h]
    simp

theorem self_mem_keysA_setA {α : Type} (l : List (String × α)) (k : String) (v : α) :
    k ∈ keysA (setA l k v) := (mem_keysA_setA l k k v).2 (Or.inr rfl)

theorem nodup_keysA_setA {α : Type} (l : List (String × α)) (k : String) (v : α)
    (h : (keysA l).Nodup) : (keysA (setA l k v)).Nodup := by
  by_cases hm : k ∈ keysA l
  · rwa [keysA_setA_of_mem l k v hm]
  · rw [keysA_setA_of_not_mem l k v hm, List.nodup_append]
    refine ⟨h, List.nodup_singleton k, ?_⟩
    intro a ha hak
    rw [List.mem_singleton] at hak
    subst hak
    exact hm ha

theorem keysA_eraseA_sublist {α : Type} (l : List (String × α)) (k : String) :
    (keysA (eraseA l k)).Sublist (keysA l) := by
  induction l with
  | nil => simp [eraseA]
  | cons p t ih =>
    obtain ⟨k₀, v₀⟩ := p
    by_cases hk : k₀ = k
    · rw [eraseA, if_pos hk, keysA_cons]
      exact List.sublist_cons_self k₀ (keysA t)
    · rw [eraseA, if_neg hk, keysA_cons, keysA_cons]
      exact ih.cons₂ k₀

theorem nodup_keysA_eraseA {α : Type} (l : List (String × α)) (k : String)
    (h : (keysA l).Nodup) : (keysA (eraseA l k)).Nodup :=
  (keysA_eraseA_sublist l k).nodup h

theorem mem_keysA_of_eraseA {α : Type} (l : List (String × α)) (k a : String)
    (h : a ∈ keysA (eraseA l k)) : a ∈ keysA l :=
  (keysA_eraseA_sublist l k).mem h

theorem mem_keysA_eraseA_of_ne {α : Type} (l : List (String × α)) (k a : String)
    (hne : a ≠ k) (ha : a ∈ keysA l) : a ∈ keysA (eraseA l k) := by
  induction l with
  | nil => simp [keysA_nil] at ha
  | cons p t ih =>
    obtain ⟨k₀, v₀⟩ := p
    rw [keysA_cons, List.mem_cons] at ha
    by_cases hk : k₀ = k
    · subst hk
      rcases ha with ha | ha
      · exact absurd ha hne
      · rw [eraseA, if_pos rfl]
        exact ha
    · rw [eraseA, if_neg hk, keysA_cons, List.mem_cons]
      rcases ha with ha | ha
      · exact Or.inl ha
      · exact Or.inr (ih ha)

theorem not_mem_keysA_eraseA {α : Type} (l : List (String × α)) (k : String)
    (hnd : (keysA l).Nodup) : k ∉ keysA (eraseA l k) := by
  induction l with
  | nil => simp [eraseA, keysA_nil]
  | cons p t ih =>
    obtain ⟨k₀, v₀⟩ := p
    rw [keysA_cons, List.nodup_cons] at hnd
    by_cases hk : k₀ = k
    · subst hk
      rw [eraseA, if_pos rfl]
      exact hnd.1
    · rw [eraseA, if_neg hk, keysA_cons, List.mem_cons, not_or]
      exact ⟨fun hc => hk hc.symm, ih hnd.2⟩

theorem length_setA_of_mem {α : Type} (l : List (String × α)) (k : String) (v : α)
    (h : k ∈ keysA l) : (setA l k v).length = l.length := by
  have h1 : (keysA (setA l k v)).length = (keysA l).length := by
    rw [keysA_setA_of_mem l k v h]
  simpa [keysA, List.length_map] using h1

theorem length_setA_of_not_mem {α : Type} (l : List (String × α)) (k : String) (v : α)
    (h : k ∉ keysA l) : (setA l k v).length = l.length + 1 := by
  have h1 : (keysA (setA l k v)).length = (keysA l).length + 1 := by
    rw [keysA_setA_of_not_mem l k v h]
    simp
  simpa [keysA, List.length_map] using h1

theorem length_eraseA_of_mem {α : Type} (l : List (String × α)) (k : String)
    (h : k ∈ keysA l) : (eraseA l k).length + 1 = l.length := by
  induction l with
  | nil => simp [keysA_nil] at h
  | cons p t ih =>
    obtain ⟨k₀, v₀⟩ := p
    by_cases hk : k₀ = k
    · simp [eraseA, hk]
    · rw [keysA_cons, List.mem_cons] at h
      rcases h with h | h
      · exact absurd h.symm hk
      · simpa [eraseA, hk] using ih h

theorem setA_ne_nil {α : Type} (l : List (String × α)) (k : String) (v : α) :
    setA l k v ≠ [] := by
  cases l with
  | nil => simp [setA]
  | cons p t =>
    obtain ⟨k₀, v₀⟩ := p
    by_cases hk : k₀ = k <;> simp [setA, hk]

/-! ## io-room lemmas -/

theorem ioMembers_ioJoin_ne (l : List (String × List String)) (r r' sid : String)
    (h : r' ≠ r) : ioMembers (ioJoin l r sid) r' = ioMembers l r' := by
  unfold ioJoin
  cases hl : lookupA l r with
  | some ms =>
    by_cases hm : sid ∈ ms
    · simp [hm]
    · simp only [hm, if_false, ioMembers, lookupA_setA_ne l r r' (ms ++ [sid]) h]
  | none => simp only [ioMembers, lookupA_setA_ne l r r' [sid] h]

theorem mem_ioMembers_ioJoin_self (l : List (String × List String)) (r sid : String) :
    sid ∈ ioMembers (ioJoin l r sid) r := by
  unfold ioJoin
  cases hl : lookupA l r with
  | some ms =>
    by_cases hm : sid ∈ ms
    · simp [hm, ioMembers, hl]
    · simp [hm, ioMembers, lookupA_setA_self]
  | none => simp [ioMembers, lookupA_setA_self]

theorem mem_ioMembers_ioJoin_of_mem (l : List (String × List String))
    (r r' sid m : String) (h : m ∈ ioMembers l r') :
    m ∈ ioMembers (ioJoin l r sid) r' := by
  by_cases hr : r' = r
  · subst hr
    unfold ioJoin
    cases hl : lookupA l r' with
    | some ms =>
      rw [ioMembers, hl] at h
      by_cases hm : sid ∈ ms
      · simpa [hm, ioMembers, hl] using h
      · simp only [hm, if_false, ioMembers, lookupA_setA_self]
        exact List.mem_append_left _ h
    | none =>
      rw [ioMembers, hl] at h
      simp at h
  · rw [ioMembers_ioJoin_ne l r r' sid hr]
    exact h

theorem ioMembers_ioLeaveAll (l : List (String × List String)) (sid r : String) :
    ioMembers (ioLeaveAll l sid) r = (ioMembers l r).filter (fun m => m != sid) := by
  induction l with
  | nil => simp [ioLeaveAll, ioMembers, lookupA]
  | cons p t ih =>
    obtain ⟨k₀, ms⟩ := p
    by_cases hk : k₀ = r
    · simp [ioLeaveAll, ioMembers, lookupA, hk]
    · simpa [ioLeaveAll, ioMembers, lookupA, hk] using ih

/-! ## The reachable-state invariant -/

/-- What holds of every registered room in any reachable server state:
non-empty membership, the host is a member, socket-id keys are unique, at
most two members, and every member is an issued socket id that, while still
connected, sits in the room's io-room. -/
structure RoomInv (allSids : List String) (sessions : List (String × Option String))
    (iorooms : List (String × List String)) (r : String) (rd : RoomData) : Prop where
  usersNe : rd.users ≠ []
  hostMem : rd.hostSocketId ∈ keysA rd.users
  usersNodup : (keysA rd.users).Nodup
  usersLe : rd.users.length ≤ 2
  memberSid : ∀ s ∈ keysA rd.users, s ∈ allSids
  memberIo : ∀ s ∈ keysA rd.users, s ∈ keysA sessions → s ∈ ioMembers iorooms r

/-- The global state invariant: unique keys everywhere, the durable store
mirrors the registry (except that the empty room id is never persisted),
sessions belong to issued ids, and every room satisfies `RoomInv`. -/
structure Inv (st : ServerState) : Prop where
  roomsNodup : (keysA st.rooms).Nodup
  filesNodup : (keysA st.files).Nodup
  sessionsNodup : (keysA st.sessions).Nodup
  fileSync : ∀ r, lookupA st.files r = if r = "" then none else lookupA st.rooms r
  sessSub : ∀ s ∈ keysA st.sessions, s ∈ st.allSids
  room : ∀ r rd, lookupA st.rooms r = some rd →
    RoomInv st.allSids st.sessions st.ioRooms r rd

theorem inv_initState : Inv initState := by
  refine ⟨List.nodup_nil, List.nodup_nil, List.nodup_nil, ?_, ?_, ?_⟩
  · intro r
    simp [initState, lookupA]
  · intro s hs
    simp [initState, keysA_nil] at hs
  · intro r rd h
    simp [initState, lookupA] at h

theorem length_eraseA_le {α : Type} (l : List (String × α)) (k : String) :
    (eraseA l k).length ≤ l.length := by
  have h := (keysA_eraseA_sublist l k).length_le
  simpa [keysA, List.length_map] using h

/-- Transfer a room's invariant across an environment change that only
shrinks the session key set (io-rooms and issued ids unchanged). -/
theorem RoomInv.sessEnv {A : List String} {S : List (String × Option String)}
    {i : List (String × List String)} {r : String} {rd : RoomData}
    (RI : RoomInv A S i r rd) (S' : List (String × Option String))
    (hS : ∀ s, s ∈ keysA S' → s ∈ keysA S) : RoomInv A S' i r rd :=
  ⟨RI.usersNe, RI.hostMem, RI.usersNodup, RI.usersLe, RI.memberSid,
    fun s hu hs => RI.memberIo s hu (hS s hs)⟩

/-- Transfer a room's invariant across a join of an already-connected
socket: its session entry is overwritten and it enters some io-room. -/
theorem RoomInv.joinEnv {A : List String} {S : List (String × Option String)}
    {i : List (String × List String)} {r : String} {rd : RoomData}
    (RI : RoomInv A S i r rd) (sid : String) (v : Option String) (rj : String)
    (hsid : sid ∈ keysA S) :
    RoomInv A (setA S sid v) (ioJoin i rj sid) r rd := by
  refine ⟨RI.usersNe, RI.hostMem, RI.usersNodup, RI.usersLe, RI.memberSid, ?_⟩
  intro s hu hs
  rcases (mem_keysA_setA S sid s v).1 hs with hs' | rfl
  · exact mem_ioMembers_ioJoin_of_mem _ _ _ _ _ (RI.memberIo s hu hs')
  · exact mem_ioMembers_ioJoin_of_mem _ _ _ _ _ (RI.memberIo s hu hsid)

/-- Transfer a room's invariant across a fresh connection: the new id was
never issued, so it is no room's member. -/
theorem RoomInv.connectEnv {A : List String} {S : List (String × Option String)}
    {i : List (String × List String)} {r : String} {rd : RoomData}
    (RI : RoomInv A S i r rd) (sid : String) (hA : sid ∉ A) :
    RoomInv (A ++ [sid]) (setA S sid none) i r rd := by
  refine ⟨RI.usersNe, RI.hostMem, RI.usersNodup, RI.usersLe,
    fun s hu => List.mem_append_left _ (RI.memberSid s hu), ?_⟩
  intro s hu hs
  rcases (mem_keysA_setA S sid s none).1 hs with hs' | rfl
  · exact RI.memberIo s hu hs'
  · exact absurd (RI.memberSid s hu) hA

/-- Transfer a room's invariant across a disconnect: the socket's session
is erased and it leaves every io-room. -/
theorem RoomInv.disconnectEnv {A : List String} {S : List (String × Option String)}
    {i : List (String × List String)} {r : String} {rd : RoomData}
    (RI : RoomInv A S i r rd) (sid : String) (hnd : (keysA S).Nodup) :
    RoomInv A (eraseA S sid) (ioLeaveAll i sid) r rd := by
  refine ⟨RI.usersNe, RI.hostMem, RI.usersNodup, RI.usersLe, RI.memberSid, ?_⟩
  intro s hu hs
  have hne : s ≠ sid := by
    intro hc
    subst hc
    exact not_mem_keysA_eraseA S s hnd hs
  have hold := RI.memberIo s hu (mem_keysA_of_eraseA S sid s hs)
  rw [ioMembers_ioLeaveAll]
  rw [List.mem_filter]
  exact ⟨hold, by simpa using hne⟩

/-! ## Handlers that do not change the state -/

theorem handleSendMessage_fst (st : ServerState) (sid roomId d : String) :
    (handleSendMessage st sid roomId d).1 = st := by
  unfold handleSendMessage
  cases lookupA st.rooms roomId with
  | none => rfl
  | some room => cases h : (lookupA room.users sid).isSome <;> simp [h]

theorem handleVideoControl_fst (st : ServerState) (sid roomId c : String) :
    (handleVideoControl st sid roomId c).1 = st := by
  unfold handleVideoControl
  cases lookupA st.rooms roomId with
  | none => rfl
  | some room => by_cases h : room.hostSocketId = sid <;> simp [h]

theorem handleRequestResync_fst (st : ServerState) (sid roomId : String) :
    (handleRequestResync st sid roomId).1 = st := by
  unfold handleRequestResync
  cases lookupA st.rooms roomId with
  | none => rfl
  | some room =>
    by_cases h : (lookupA room.users sid).isSome ∧ room.hostSocketId ≠ sid
    · by_cases h2 : room.hostSocketId ≠ "" <;> simp [h, h2]
    · simp [h]

theorem handleHostSyncStateUpdate_fst (st : ServerState) (sid roomId state : String)
    (target : Option String) :
    (handleHostSyncStateUpdate st sid roomId state target).1 = st := by
  unfold handleHostSyncStateUpdate
  cases lookupA st.rooms roomId with
  | none => rfl
  | some room =>
    by_cases h : room.hostSocketId = sid
    · cases target with
      | none => simp [h]
      | some t => by_cases ht : t ≠ "" <;> simp [h, ht]
    · simp [h]

/-! ## Invariant preservation, event by event -/

theorem inv_connect (st : ServerState) (sid : String) (h : Inv st)
    (hfresh : sid ∉ st.allSids) :
    Inv { st with
      sessions := setA st.sessions sid none
      allSids := st.allSids ++ [sid] } := by
  refine ⟨h.roomsNodup, h.filesNodup, ?_, h.fileSync, ?_, ?_⟩
  · have hnm : sid ∉ keysA st.sessions := fun hc => hfresh (h.sessSub sid hc)
    exact nodup_keysA_setA st.sessions sid none h.sessionsNodup
  · intro s hs
    rcases (mem_keysA_setA st.sessions sid s none).1 hs with hs' | rfl
    · exact List.mem_append_left _ (h.sessSub s hs')
    · exact List.mem_append_right _ (List.mem_singleton_self s)
  · intro r rd hr
    exact (h.room r rd hr).connectEnv sid hfresh

theorem inv_handleVideoSelect (st : ServerState) (sid roomId videoUrl fileName : String)
    (h : Inv st) : Inv (handleVideoSelect st sid roomId videoUrl fileName).1 := by
  unfold handleVideoSelect
  cases hm : lookupA st.rooms roomId with
  | none => exact h
  | some room =>
    dsimp only
    by_cases hh : room.hostSocketId = sid
    · rw [if_pos hh]
      refine ⟨?_, ?_, h.sessionsNodup, ?_, h.sessSub, ?_⟩
      · exact nodup_keysA_setA st.rooms roomId _ h.roomsNodup
      · unfold saveRoomData
        by_cases hr0 : roomId = ""
        · simpa [hr0] using h.filesNodup
        · simpa [hr0] using nodup_keysA_setA st.files roomId _ h.filesNodup
      · intro r'
        unfold saveRoomData
        by_cases hr0 : roomId = ""
        · rw [if_pos hr0]
          by_cases hr' : r' = roomId
          · subst hr'
            rw [h.fileSync r', if_pos hr0, hr0]
            rw [if_pos rfl]
          · rw [h.fileSync r', lookupA_setA_ne st.rooms roomId r' _ hr']
        · rw [if_neg hr0]
          by_cases hr' : r' = roomId
          · subst hr'
            rw [lookupA_setA_self, lookupA_setA_self, if_neg hr0]
          · rw [lookupA_setA_ne st.files roomId r' _ hr',
              lookupA_setA_ne st.rooms roomId r' _ hr', h.fileSync r']
      · intro r' rd' hr'
        by_cases hrr : r' = roomId
        · subst hrr
          rw [lookupA_setA_self] at hr'
          injection hr' with hr'
          subst hr'
          have RI := h.room r' room hm
          exact ⟨RI.usersNe, RI.hostMem, RI.usersNodup, RI.usersLe,
            RI.memberSid, RI.memberIo⟩
        · rw [lookupA_setA_ne st.rooms roomId r' _ hrr] at hr'
          exact h.room r' rd' hr'
    · rw [if_neg hh]
      exact h

theorem mem_keysA_of_mem {α : Type} {l : List (String × α)} {e : String × α}
    (he : e ∈ l) : e.1 ∈ keysA l := List.mem_map_of_mem Prod.fst he

theorem findExisting_none (users : List (String × String)) (sid username : String)
    (h : findExisting users sid username = none) :
    ∀ e ∈ users, e.1 ≠ sid ∧ e.2 ≠ username := by
  intro e he
  have h2 := List.find?_eq_none.mp h e he
  simp only [Bool.or_eq_true, beq_iff_eq, not_or] at h2
  exact h2

theorem findExisting_mem {users : List (String × String)} {sid username : String}
    {e : String × String} (h : findExisting users sid username = some e) :
    e ∈ users := List.mem_of_find?_eq_some h

theorem not_mem_keysA_of_findExisting_none (users : List (String × String))
    (sid username : String) (h : findExisting users sid username = none) :
    sid ∉ keysA users := by
  intro hc
  rw [keysA, List.mem_map] at hc
  obtain ⟨e, he, h1⟩ := hc
  exact (findExisting_none users sid username h e he).1 h1

/-- Under the invariant, the memory-or-file resolution of `join_room` is
just the registry lookup: the durable store never holds a room the registry
does not. -/
theorem joinRoom_resolve (st : ServerState)
    (hfs : ∀ r, lookupA st.files r = if r = "" then none else lookupA st.rooms r)
    (roomId : String) :
    ((lookupA st.rooms roomId).orElse (fun _ => loadRoomData st.files roomId))
      = lookupA st.rooms roomId := by
  cases h : lookupA st.rooms roomId with
  | some rd => rfl
  | none =>
    show loadRoomData st.files roomId = none
    unfold loadRoomData
    by_cases hr : roomId = ""
    · rw [if_pos hr]
    · rw [if_neg hr, hfs roomId, if_neg hr, h]

theorem inv_joinSuccess (st : ServerState) (sid roomId : String) (rd1 : RoomData)
    (h : Inv st) (hs : sid ∈ keysA st.sessions)
    (hRI : RoomInv st.allSids (setA st.sessions sid (some roomId))
      (ioJoin st.ioRooms roomId sid) roomId rd1) :
    Inv { st with
      rooms := setA st.rooms roomId rd1
      files := saveRoomData st.files roomId rd1
      sessions := setA st.sessions sid (some roomId)
      ioRooms := ioJoin st.ioRooms roomId sid } := by
  refine ⟨nodup_keysA_setA _ _ _ h.roomsNodup, ?_,
    nodup_keysA_setA _ _ _ h.sessionsNodup, ?_, ?_, ?_⟩
  · unfold saveRoomData
    by_cases hr0 : roomId = ""
    · simpa [hr0] using h.filesNodup
    · simpa [hr0] using nodup_keysA_setA st.files roomId rd1 h.filesNodup
  · intro r'
    unfold saveRoomData
    by_cases hr0 : roomId = ""
    · rw [if_pos hr0]
      by_cases hr' : r' = roomId
      · subst hr'
        rw [h.fileSync r', if_pos hr0, hr0, if_pos rfl]
      · rw [h.fileSync r']
        by_cases hre : r' = ""
        · rw [if_pos hre, if_pos hre]
        · rw [if_neg hre, if_neg hre, lookupA_setA_ne st.rooms roomId r' rd1 hr']
    · rw [if_neg hr0]
      by_cases hr' : r' = roomId
      · subst hr'
        rw [lookupA_setA_self, if_neg hr0, lookupA_setA_self]
      · rw [lookupA_setA_ne st.files roomId r' rd1 hr',
          lookupA_setA_ne st.rooms roomId r' rd1 hr', h.fileSync r']
  · intro s hs'
    rcases (mem_keysA_setA st.sessions sid s (some roomId)).1 hs' with hs2 | rfl
    · exact h.sessSub s hs2
    · exact h.sessSub s hs
  · intro r' rd' hr'
    by_cases hrr : r' = roomId
    · subst hrr
      rw [lookupA_setA_self] at hr'
      injection hr' with hr'
      subst hr'
      exact hRI
    · rw [lookupA_setA_ne st.rooms roomId r' rd1 hrr] at hr'
      exact (h.room r' rd' hr').joinEnv sid (some roomId) roomId hs

theorem inv_joinReject (st : ServerState) (sid roomId : String)
    (h : Inv st) (hs : sid ∈ keysA st.sessions) :
    Inv { st with
      sessions := setA (setA st.sessions sid (some roomId)) sid none } := by
  refine ⟨h.roomsNodup, h.filesNodup,
    nodup_keysA_setA _ _ _ (nodup_keysA_setA _ _ _ h.sessionsNodup),
    h.fileSync, ?_, ?_⟩
  · intro s hs'
    rcases (mem_keysA_setA _ sid s none).1 hs' with hs2 | rfl
    · rcases (mem_keysA_setA st.sessions sid s (some roomId)).1 hs2 with hs3 | rfl
      · exact h.sessSub s hs3
      · exact h.sessSub s hs
    · exact h.sessSub s hs
  · intro r' rd' hr'
    refine (h.room r' rd' hr').sessEnv _ ?_
    intro s hs'
    rcases (mem_keysA_setA _ sid s none).1 hs' with hs2 | rfl
    · rcases (mem_keysA_setA st.sessions sid s (some roomId)).1 hs2 with hs3 | rfl
      · exact hs3
      · exact hs
    · exact hs

theorem inv_handleJoinRoom (st : ServerState) (sid roomId password username : String)
    (h : Inv st) (hs : sid ∈ keysA st.sessions) :
    Inv (handleJoinRoom st sid roomId password username).1 := by
  simp only [handleJoinRoom, joinRoom_resolve st h.fileSync roomId]
  cases hm : lookupA st.rooms roomId with
  | none =>
    dsimp only
    refine inv_joinSuccess st sid roomId _ h hs ?_
    refine ⟨by simp, ?_, by simp [keysA], by simp, ?_, ?_⟩
    · show sid ∈ keysA [(sid, username)]
      simp [keysA]
    · intro s hu
      rw [keysA_cons] at hu
      rcases List.mem_cons.1 hu with rfl | hu2
      · exact h.sessSub s hs
      · simp [keysA_nil] at hu2
    · intro s hu hsess
      rw [keysA_cons] at hu
      rcases List.mem_cons.1 hu with rfl | hu2
      · exact mem_ioMembers_ioJoin_self st.ioRooms roomId s
      · simp [keysA_nil] at hu2
  | some rd0 =>
    dsimp only
    have RI0 := h.room roomId rd0 hm
    by_cases hp : rd0.password ≠ password
    · rw [if_pos hp]
      exact inv_joinReject st sid roomId h hs
    · rw [if_neg hp]
      cases hf : findExisting rd0.users sid username with
      | some e =>
        dsimp only
        have he := findExisting_mem hf
        have he1 : e.1 ∈ keysA rd0.users := mem_keysA_of_mem he
        by_cases hcond : e.1 ≠ sid ∧ e.2 = username
        · rw [if_pos hcond]
          refine inv_joinSuccess st sid roomId _ h hs ?_
          refine ⟨setA_ne_nil _ _ _, ?_,
            nodup_keysA_setA _ _ _ (nodup_keysA_eraseA _ _ RI0.usersNodup),
            ?_, ?_, ?_⟩
          · show (if rd0.hostSocketId = e.1 then sid else rd0.hostSocketId)
              ∈ keysA (setA (eraseA rd0.users e.1) sid username)
            by_cases hh : rd0.hostSocketId = e.1
            · rw [if_pos hh]
              exact self_mem_keysA_setA _ _ _
            · rw [if_neg hh]
              exact (mem_keysA_setA _ sid _ username).2
                (Or.inl (mem_keysA_eraseA_of_ne _ e.1 _ hh RI0.hostMem))
          · show (setA (eraseA rd0.users e.1) sid username).length ≤ 2
            have hlen := length_eraseA_of_mem rd0.users e.1 he1
            have hle := RI0.usersLe
            by_cases hsm : sid ∈ keysA (eraseA rd0.users e.1)
            · rw [length_setA_of_mem _ _ _ hsm]
              omega
            · rw [length_setA_of_not_mem _ _ _ hsm]
              omega
          · intro s hu
            rcases (mem_keysA_setA _ sid s username).1 hu with hu2 | rfl
            · exact RI0.memberSid s (mem_keysA_of_eraseA _ e.1 s hu2)
            · exact h.sessSub s hs
          · intro s hu hsess
            rcases (mem_keysA_setA _ sid s username).1 hu with hu2 | rfl
            · rcases (mem_keysA_setA st.sessions sid s (some roomId)).1 hsess
                with hs3 | rfl
              · exact mem_ioMembers_ioJoin_of_mem _ _ _ _ _
                  (RI0.memberIo s (mem_keysA_of_eraseA _ e.1 s hu2) hs3)
              · exact mem_ioMembers_ioJoin_self st.ioRooms roomId s
            · exact mem_ioMembers_ioJoin_self st.ioRooms roomId s
        · rw [if_neg hcond]
          exact inv_joinSuccess st sid roomId rd0 h hs
            (RI0.joinEnv sid (some roomId) roomId hs)
      | none =>
        dsimp only
        by_cases hfull : rd0.users.length ≥ 2
        · rw [if_pos hfull]
          exact inv_joinReject st sid roomId h hs
        · rw [if_neg hfull]
          have hnm := not_mem_keysA_of_findExisting_none rd0.users sid username hf
          refine inv_joinSuccess st sid roomId _ h hs ?_
          refine ⟨setA_ne_nil _ _ _, ?_,
            nodup_keysA_setA _ _ _ RI0.usersNodup, ?_, ?_, ?_⟩
          · show rd0.hostSocketId ∈ keysA (setA rd0.users sid username)
            exact (mem_keysA_setA _ sid _ username).2 (Or.inl RI0.hostMem)
          · show (setA rd0.users sid username).length ≤ 2
            rw [length_setA_of_not_mem _ _ _ hnm]
            omega
          · intro s hu
            rcases (mem_keysA_setA _ sid s username).1 hu with hu2 | rfl
            · exact RI0.memberSid s hu2
            · exact h.sessSub s hs
          · intro s hu hsess
            rcases (mem_keysA_setA _ sid s username).1 hu with hu2 | rfl
            · rcases (mem_keysA_setA st.sessions sid s (some roomId)).1 hsess
                with hs3 | rfl
              · exact mem_ioMembers_ioJoin_of_mem _ _ _ _ _
                  (RI0.memberIo s hu2 hs3)
              · exact mem_ioMembers_ioJoin_self st.ioRooms roomId s
            · exact mem_ioMembers_ioJoin_self st.ioRooms roomId s

theorem inv_disconnectBase (st : ServerState) (sid : String) (h : Inv st) :
    Inv { st with
      sessions := eraseA st.sessions sid
      ioRooms := ioLeaveAll st.ioRooms sid } := by
  refine ⟨h.roomsNodup, h.filesNodup, nodup_keysA_eraseA _ _ h.sessionsNodup,
    h.fileSync, ?_, ?_⟩
  · intro s hs'
    exact h.sessSub s (mem_keysA_of_eraseA st.sessions sid s hs')
  · intro r' rd' hr'
    exact (h.room r' rd' hr').disconnectEnv sid h.sessionsNodup

theorem inv_disconnectUpdate (st : ServerState) (sid roomId : String)
    (room1 : RoomData) (h : Inv st) (hrid : roomId ≠ "")
    (hRI : RoomInv st.allSids (eraseA st.sessions sid)
      (ioLeaveAll st.ioRooms sid) roomId room1) :
    Inv { st with
      rooms := setA st.rooms roomId room1
      files := saveRoomData st.files roomId room1
      sessions := eraseA st.sessions sid
      ioRooms := ioLeaveAll st.ioRooms sid } := by
  refine ⟨nodup_keysA_setA _ _ _ h.roomsNodup, ?_,
    nodup_keysA_eraseA _ _ h.sessionsNodup, ?_, ?_, ?_⟩
  · unfold saveRoomData
    rw [if_neg hrid]
    exact nodup_keysA_setA _ _ _ h.filesNodup
  · intro r'
    unfold saveRoomData
    rw [if_neg hrid]
    by_cases hr' : r' = roomId
    · subst hr'
      rw [lookupA_setA_self, if_neg hrid, lookupA_setA_self]
    · rw [lookupA_setA_ne st.files roomId r' room1 hr',
        lookupA_setA_ne st.rooms roomId r' room1 hr', h.fileSync r']
  · intro s hs'
    exact h.sessSub s (mem_keysA_of_eraseA st.sessions sid s hs')
  · intro r' rd' hr'
    by_cases hrr : r' = roomId
    · subst hrr
      rw [lookupA_setA_self] at hr'
      injection hr' with hr'
      subst hr'
      exact hRI
    · rw [lookupA_setA_ne st.rooms roomId r' room1 hrr] at hr'
      exact (h.room r' rd' hr').disconnectEnv sid h.sessionsNodup

theorem inv_handleDisconnect (st : ServerState) (sid : String)
    (h : Inv st) : Inv (handleDisconnect st sid).1 := by
  simp only [handleDisconnect]
  cases hcur : (lookupA st.sessions sid).getD none with
  | none =>
    dsimp only
    exact inv_disconnectBase st sid h
  | some roomId =>
    dsimp only
    by_cases hrid : roomId = ""
    · rw [if_pos hrid]
      dsimp only
      exact inv_disconnectBase st sid h
    · rw [if_neg hrid]
      dsimp only
      cases hroom : lookupA st.rooms roomId with
      | none =>
        dsimp only
        exact inv_disconnectBase st sid h
      | some room =>
        dsimp only
        have RI0 := h.room roomId room hroom
        have hmemIo : ∀ s, s ∈ keysA (eraseA room.users sid) →
            s ∈ keysA (eraseA st.sessions sid) →
            s ∈ ioMembers (ioLeaveAll st.ioRooms sid) roomId := by
          intro s hu hsess
          have hne : s ≠ sid := by
            intro hc
            subst hc
            exact not_mem_keysA_eraseA st.sessions s h.sessionsNodup hsess
          have hold := RI0.memberIo s (mem_keysA_of_eraseA room.users sid s hu)
            (mem_keysA_of_eraseA st.sessions sid s hsess)
          rw [ioMembers_ioLeaveAll, List.mem_filter]
          exact ⟨hold, by simpa using hne⟩
        cases hu1 : eraseA room.users sid with
        | nil =>
          rw [if_pos rfl]
          refine ⟨nodup_keysA_eraseA _ _ h.roomsNodup, ?_,
            nodup_keysA_eraseA _ _ h.sessionsNodup, ?_, ?_, ?_⟩
          · unfold deleteRoomData
            rw [if_neg hrid]
            exact nodup_keysA_eraseA _ _ h.filesNodup
          · intro r'
            unfold deleteRoomData
            rw [if_neg hrid]
            by_cases hr' : r' = roomId
            · subst hr'
              rw [lookupA_eraseA_self st.files r' h.filesNodup, if_neg hrid,
                lookupA_eraseA_self st.rooms r' h.roomsNodup]
            · rw [lookupA_eraseA_ne st.files roomId r' hr',
                lookupA_eraseA_ne st.rooms roomId r' hr', h.fileSync r']
          · intro s hs'
            exact h.sessSub s (mem_keysA_of_eraseA st.sessions sid s hs')
          · intro r' rd' hr'
            by_cases hrr : r' = roomId
            · subst hrr
              rw [lookupA_eraseA_self st.rooms r' h.roomsNodup] at hr'
              exact Option.noConfusion hr'
            · rw [lookupA_eraseA_ne st.rooms roomId r' hrr] at hr'
              exact (h.room r' rd' hr').disconnectEnv sid h.sessionsNodup
        | cons nh t =>
          rw [if_neg (List.cons_ne_nil nh t)]
          by_cases hh : sid = room.hostSocketId
          · rw [if_pos hh]
            dsimp only
            refine inv_disconnectUpdate st sid roomId _ h hrid ?_
            refine ⟨List.cons_ne_nil nh t, ?_, ?_, ?_, ?_, ?_⟩
            · show nh.1 ∈ keysA (nh :: t)
              exact mem_keysA_of_mem (List.mem_cons_self nh t)
            · show (keysA (nh :: t)).Nodup
              rw [← hu1]
              exact nodup_keysA_eraseA _ _ RI0.usersNodup
            · show (nh :: t).length ≤ 2
              rw [← hu1]
              exact le_trans (length_eraseA_le room.users sid) RI0.usersLe
            · intro s hu
              rw [← hu1] at hu
              exact RI0.memberSid s (mem_keysA_of_eraseA room.users sid s hu)
            · intro s hu hsess
              rw [← hu1] at hu
              exact hmemIo s hu hsess
          · rw [if_neg hh]
            refine inv_disconnectUpdate st sid roomId _ h hrid ?_
            refine ⟨List.cons_ne_nil nh t, ?_, ?_, ?_, ?_, ?_⟩
            · show room.hostSocketId ∈ keysA (nh :: t)
              rw [← hu1]
              exact mem_keysA_eraseA_of_ne room.users sid room.hostSocketId
                (fun hc => hh hc.symm) RI0.hostMem
            · show (keysA (nh :: t)).Nodup
              rw [← hu1]
              exact nodup_keysA_eraseA _ _ RI0.usersNodup
            · show (nh :: t).length ≤ 2
              rw [← hu1]
              exact le_trans (length_eraseA_le room.users sid) RI0.usersLe
            · intro s hu
              have hu2 : s ∈ keysA (nh :: t) := hu
              rw [← hu1] at hu2
              exact RI0.memberSid s (mem_keysA_of_eraseA room.users sid s hu2)
            · intro s hu hsess
              have hu2 : s ∈ keysA (nh :: t) := hu
              rw [← hu1] at hu2
              exact hmemIo s hu2 hsess

theorem inv_step (st : ServerState) (e : Event) (h : Inv st) : Inv (step st e).1 := by
  cases e with
  | connect sid =>
    by_cases hc : sid ∈ st.allSids
    · simpa [step, hc] using h
    · simpa [step, hc] using inv_connect st sid h hc
  | join sid roomId password username =>
    by_cases hc : sid ∈ keysA st.sessions
    · simpa [step, hc] using inv_handleJoinRoom st sid roomId password username h hc
    · simpa [step, hc] using h
  | sendMessage sid roomId d =>
    by_cases hc : sid ∈ keysA st.sessions
    · simp only [step, if_pos hc]
      rw [handleSendMessage_fst]
      exact h
    · simpa [step, hc] using h
  | videoSelect sid roomId videoUrl fileName =>
    by_cases hc : sid ∈ keysA st.sessions
    · simpa [step, hc] using inv_handleVideoSelect st sid roomId videoUrl fileName h
    · simpa [step, hc] using h
  | videoControl sid roomId c =>
    by_cases hc : sid ∈ keysA st.sessions
    · simp only [step, if_pos hc]
      rw [handleVideoControl_fst]
      exact h
    · simpa [step, hc] using h
  | requestResync sid roomId =>
    by_cases hc : sid ∈ keysA st.sessions
    · simp only [step, if_pos hc]
      rw [handleRequestResync_fst]
      exact h
    · simpa [step, hc] using h
  | hostSyncStateUpdate sid roomId state target =>
    by_cases hc : sid ∈ keysA st.sessions
    · simp only [step, if_pos hc]
      rw [handleHostSyncStateUpdate_fst]
      exact h
    · simpa [step, hc] using h
  | disconnect sid =>
    by_cases hc : sid ∈ keysA st.sessions
    · simpa [step, hc] using inv_handleDisconnect st sid h
    · simpa [step, hc] using h

theorem inv_run (events : List Event) : Inv (run events) := by
  suffices hgen : ∀ st : ServerState, Inv st →
      Inv (events.foldl (fun s e => (step s e).1) st) by
    exact hgen initState inv_initState
  induction events with
  | nil =>
    intro st h
    simpa using h
  | cons e es ih =>
    intro st h
    simp only [List.foldl_cons]
    exact ih _ (inv_step st e h)

theorem inv_of_reachable (st : ServerState) (h : Reachable st) : Inv st := by
  obtain ⟨es, rfl⟩ := h
  exact inv_run es

/-- `find?` returns the unique element satisfying the predicate. -/
theorem find_eq_of_unique {α : Type} (p : α → Bool) (l : List α) (e : α)
    (he : e ∈ l) (hpe : p e = true) (huniq : ∀ e' ∈ l, p e' = true → e' = e) :
    l.find? p = some e := by
  induction l with
  | nil => simp at he
  | cons a t ih =>
    by_cases hpa : p a = true
    · rw [List.find?_cons_of_pos _ hpa, huniq a (List.mem_cons_self a t) hpa]
    · rw [List.find?_cons_of_neg _ hpa]
      rcases List.mem_cons.1 he with rfl | he2
      · exact absurd hpe hpa
      · exact ih he2 (fun e' he' hp' => huniq e' (List.mem_cons_of_mem a he') hp')

theorem orElse_some {α : Type} (a : α) (f : Unit → Option α) :
    (some a).orElse f = some a := rfl

theorem handleVideoSelect_fst_nonhost (st : ServerState) (sid r v f : String)
    (rd : RoomData) (hr : lookupA st.rooms r = some rd)
    (hh : rd.hostSocketId ≠ sid) : (handleVideoSelect st sid r v f).1 = st := by
  unfold handleVideoSelect
  rw [hr]
  dsimp only
  rw [if_neg hh]

theorem lookupA_isSome_of_mem {α : Type} (l : List (String × α)) (k : String)
    (h : k ∈ keysA l) : (lookupA l k).isSome = true := by
  induction l with
  | nil => simp [keysA_nil] at h
  | cons p t ih =>
    obtain ⟨k₀, v₀⟩ := p
    by_cases hk : k₀ = k
    · simp [lookupA, hk]
    · rw [keysA_cons, List.mem_cons] at h
      rcases h with h | h
      · exact absurd h.symm hk
      · simpa [lookupA, hk] using ih h

/-! ## Claims -/

/-- C1, counterexample to the claim as stated: after the trace
`connect s1; connect s2; s1 joins A (host); s2 joins A; s1 joins B;
s1 disconnects`, room `A` is non-empty, its host `s1` has disconnected
(no session holds it), a member `s2` remains — yet `hostSocketId` is still
`s1`, not the first remaining member: the disconnect was processed against
`B`, the room `s1`'s session was last bound to. -/
theorem C1_counterexample :
    lookupA (run [Event.connect "s1", Event.connect "s2",
      Event.join "s1" "A" "p" "a", Event.join "s2" "A" "p" "b",
      Event.join "s1" "B" "q" "a", Event.disconnect "s1"]).rooms "A"
      = some ⟨[("s1", "a"), ("s2", "b")], "p", none, none, "s1"⟩ ∧
    lookupA (run [Event.connect "s1", Event.connect "s2",
      Event.join "s1" "A" "p" "a", Event.join "s2" "A" "p" "b",
      Event.join "s1" "B" "q" "a", Event.disconnect "s1"]).sessions "s1"
      = none := by
  decide

/-- C1 (amended): in every reachable state each registered room is
non-empty, its `hostSocketId` is one of the `users` keys, and exactly one
`users` entry carries it; and when the host disconnects *while its session
is still bound to the room* and members remain, the new host is the first
remaining member in insertion order of the `users` map. -/
theorem C1_host_membership_and_failover (st : ServerState) (h : Reachable st) :
    (∀ r rd, lookupA st.rooms r = some rd →
      rd.users ≠ [] ∧ rd.hostSocketId ∈ keysA rd.users ∧
      (keysA rd.users).count rd.hostSocketId = 1) ∧
    (∀ sid r rd nh t, lookupA st.sessions sid = some (some r) → r ≠ "" →
      lookupA st.rooms r = some rd → rd.hostSocketId = sid →
      eraseA rd.users sid = nh :: t →
      lookupA (step st (Event.disconnect sid)).1.rooms r
        = some ⟨nh :: t, rd.password, rd.currentVideoUrl,
            rd.currentVideoFileName, nh.1⟩) := by
  have hinv := inv_of_reachable st h
  constructor
  · intro r rd hr
    have RI := hinv.room r rd hr
    exact ⟨RI.usersNe, RI.hostMem,
      List.count_eq_one_of_mem RI.usersNodup RI.hostMem⟩
  · intro sid r rd nh t hcur hrne hr hhost hu
    have hs : sid ∈ keysA st.sessions := mem_keysA_of_lookupA _ _ _ hcur
    simp only [step, if_pos hs, handleDisconnect]
    rw [hcur, Option.getD_some]
    dsimp only
    rw [if_neg hrne]
    dsimp only
    rw [hr]
    dsimp only
    rw [hu, if_neg (List.cons_ne_nil nh t), if_pos hhost.symm]
    dsimp only
    rw [lookupA_setA_self]

/-- C1 witness: in the concrete two-member room `A`, the host `s1`
disconnecting with its session still bound to `A` hands the host role to
the first remaining member `s2`. -/
theorem C1_witness :
    lookupA (run [Event.connect "s1", Event.connect "s2",
      Event.join "s1" "A" "p" "a", Event.join "s2" "A" "p" "b"]).sessions "s1"
      = some (some "A") ∧
    lookupA (step (run [Event.connect "s1", Event.connect "s2",
      Event.join "s1" "A" "p" "a", Event.join "s2" "A" "p" "b"])
        (Event.disconnect "s1")).1.rooms "A"
      = some ⟨[("s2", "b")], "p", none, none, "s2"⟩ := by
  constructor
  · decide
  · exact (C1_host_membership_and_failover
      (run [Event.connect "s1", Event.connect "s2",
        Event.join "s1" "A" "p" "a", Event.join "s2" "A" "p" "b"])
      ⟨[Event.connect "s1", Event.connect "s2",
        Event.join "s1" "A" "p" "a", Event.join "s2" "A" "p" "b"], rfl⟩).2
      "s1" "A" ⟨[("s1", "a"), ("s2", "b")], "p", none, none, "s1"⟩ ("s2", "b") []
      (by decide) (by decide) (by decide) (by decide) (by decide)

/-- C2, counterexample to the claim as stated: room `A` is full with two
members, `s3` is a third identity (socket id and username both fresh), yet
its join with a wrong password receives `Invalid password.`, not
`Room is full.` — the password check precedes the capacity check. -/
theorem C2_counterexample :
    lookupA (run [Event.connect "s1", Event.connect "s2", Event.connect "s3",
      Event.join "s1" "A" "p" "a", Event.join "s2" "A" "p" "b"]).rooms "A"
      = some ⟨[("s1", "a"), ("s2", "b")], "p", none, none, "s1"⟩ ∧
    (step (run [Event.connect "s1", Event.connect "s2", Event.connect "s3",
      Event.join "s1" "A" "p" "a", Event.join "s2" "A" "p" "b"])
      (Event.join "s3" "A" "x" "c")).2
      = [("s3", ServerMsg.joinError "Invalid password.")] := by
  decide

/-- C2 (amended): a room's `users` map never exceeds 2 entries in any
reachable state; and a join by a third identity (socket id and username
both differing from every member) *with the room's correct password*
against a 2-member room receives `Room is full.` and leaves the registry
unchanged. -/
theorem C2_capacity_and_roomFull (st : ServerState) (h : Reachable st) :
    (∀ r rd, lookupA st.rooms r = some rd → rd.users.length ≤ 2) ∧
    (∀ sid r rd u, sid ∈ keysA st.sessions → lookupA st.rooms r = some rd →
      rd.users.length = 2 →
      (∀ e ∈ rd.users, e.1 ≠ sid ∧ e.2 ≠ u) →
      (step st (Event.join sid r rd.password u)).2
        = [(sid, ServerMsg.joinError "Room is full.")] ∧
      (step st (Event.join sid r rd.password u)).1.rooms = st.rooms) := by
  have hinv := inv_of_reachable st h
  constructor
  · intro r rd hr
    exact (hinv.room r rd hr).usersLe
  · intro sid r rd u hs hr hlen hdiff
    have hfind : findExisting rd.users sid u = none := by
      rw [findExisting]
      apply List.find?_eq_none.mpr
      intro e he
      have hd := hdiff e he
      simp only [Bool.or_eq_true, beq_iff_eq, not_or]
      exact hd
    simp only [step, if_pos hs, handleJoinRoom]
    rw [hr, orElse_some]
    dsimp only
    rw [if_neg (fun hc : rd.password ≠ rd.password => hc rfl)]
    rw [hfind]
    dsimp only
    rw [if_pos (by omega : rd.users.length ≥ 2)]
    exact ⟨rfl, rfl⟩

/-- C2 witness: the same third-identity join with the correct password is
rejected with `Room is full.` and adds nothing. -/
theorem C2_witness :
    lookupA (run [Event.connect "s1", Event.connect "s2", Event.connect "s3",
      Event.join "s1" "A" "p" "a", Event.join "s2" "A" "p" "b"]).rooms "A"
      = some ⟨[("s1", "a"), ("s2", "b")], "p", none, none, "s1"⟩ ∧
    (step (run [Event.connect "s1", Event.connect "s2", Event.connect "s3",
      Event.join "s1" "A" "p" "a", Event.join "s2" "A" "p" "b"])
      (Event.join "s3" "A" "p" "c")).2
      = [("s3", ServerMsg.joinError "Room is full.")] := by
  constructor
  · decide
  · exact ((C2_capacity_and_roomFull
      (run [Event.connect "s1", Event.connect "s2", Event.connect "s3",
        Event.join "s1" "A" "p" "a", Event.join "s2" "A" "p" "b"])
      ⟨[Event.connect "s1", Event.connect "s2", Event.connect "s3",
        Event.join "s1" "A" "p" "a", Event.join "s2" "A" "p" "b"], rfl⟩).2
      "s3" "A" ⟨[("s1", "a"), ("s2", "b")], "p", none, none, "s1"⟩ "c"
      (by decide) (by decide) (by decide) (by decide)).1

/-- C3: a `video_control` from the room's host is relayed as
`video_controlled` to exactly the connections in the room's io-room other
than the sender — in particular to every still-connected member of the
`users` map other than the sender, and never back to the sender — while a
`video_control` from a non-host produces no broadcast at all; the state is
unchanged either way. -/
theorem C3_video_control_broadcast (st : ServerState) (h : Reachable st)
    (sid r c : String) (rd : RoomData) (hs : sid ∈ keysA st.sessions)
    (hr : lookupA st.rooms r = some rd) :
    (step st (Event.videoControl sid r c)).1 = st ∧
    (rd.hostSocketId = sid →
      (step st (Event.videoControl sid r c)).2
        = ((ioMembers st.ioRooms r).filter (fun m => m != sid)).map
            (fun m => (m, ServerMsg.videoControlled c)) ∧
      (∀ m, m ∈ keysA rd.users → m ≠ sid → m ∈ keysA st.sessions →
        (m, ServerMsg.videoControlled c) ∈ (step st (Event.videoControl sid r c)).2) ∧
      (sid, ServerMsg.videoControlled c) ∉ (step st (Event.videoControl sid r c)).2) ∧
    (rd.hostSocketId ≠ sid → (step st (Event.videoControl sid r c)).2 = []) := by
  have hinv := inv_of_reachable st h
  refine ⟨?_, ?_, ?_⟩
  · simp only [step, if_pos hs]
    exact handleVideoControl_fst st sid r c
  · intro hh
    have hout : (step st (Event.videoControl sid r c)).2
        = ((ioMembers st.ioRooms r).filter (fun m => m != sid)).map
            (fun m => (m, ServerMsg.videoControlled c)) := by
      simp only [step, if_pos hs, handleVideoControl]
      rw [hr]
      dsimp only
      rw [if_pos hh]
    refine ⟨hout, ?_, ?_⟩
    · intro m hm hmne hmconn
      rw [hout]
      have hio := (hinv.room r rd hr).memberIo m hm hmconn
      refine List.mem_map_of_mem _ ?_
      rw [List.mem_filter]
      exact ⟨hio, bne_iff_ne.mpr hmne⟩
    · intro hc
      rw [hout] at hc
      obtain ⟨m, hmf, heq⟩ := List.mem_map.1 hc
      rw [List.mem_filter] at hmf
      have : m = sid := congrArg Prod.fst heq
      subst this
      exact absurd rfl (bne_iff_ne.mp hmf.2)
  · intro hh
    simp only [step, if_pos hs, handleVideoControl]
    rw [hr]
    dsimp only
    rw [if_neg hh]

/-- C3 witness: in the concrete room `A` (host `s1`, guest `s2`), the
host's control is delivered exactly to `s2`. -/
theorem C3_witness :
    lookupA (run [Event.connect "s1", Event.connect "s2",
      Event.join "s1" "A" "p" "a", Event.join "s2" "A" "p" "b"]).rooms "A"
      = some ⟨[("s1", "a"), ("s2", "b")], "p", none, none, "s1"⟩ ∧
    (step (run [Event.connect "s1", Event.connect "s2",
      Event.join "s1" "A" "p" "a", Event.join "s2" "A" "p" "b"])
      (Event.videoControl "s1" "A" "c")).2
      = [("s2", ServerMsg.videoControlled "c")] := by
  refine ⟨by decide, ?_⟩
  have h := ((C3_video_control_broadcast
    (run [Event.connect "s1", Event.connect "s2",
      Event.join "s1" "A" "p" "a", Event.join "s2" "A" "p" "b"])
    ⟨[Event.connect "s1", Event.connect "s2",
      Event.join "s1" "A" "p" "a", Event.join "s2" "A" "p" "b"], rfl⟩
    "s1" "A" "c" ⟨[("s1", "a"), ("s2", "b")], "p", none, none, "s1"⟩
    (by decide) (by decide)).2.1 (by decide)).1
  rw [h]
  decide

/-- C4, counterexample to the claim as stated: `s2` is a connected member
of room `A` and not its host, yet its `video_control` and
`host_sync_state_update` produce no message at all — no `error_event` is
sent for these two host-only operations. -/
theorem C4_counterexample :
    lookupA (run [Event.connect "s1", Event.connect "s2",
      Event.join "s1" "A" "p" "a", Event.join "s2" "A" "p" "b"]).rooms "A"
      = some ⟨[("s1", "a"), ("s2", "b")], "p", none, none, "s1"⟩ ∧
    (step (run [Event.connect "s1", Event.connect "s2",
      Event.join "s1" "A" "p" "a", Event.join "s2" "A" "p" "b"])
      (Event.videoControl "s2" "A" "c")).2 = [] ∧
    (step (run [Event.connect "s1", Event.connect "s2",
      Event.join "s1" "A" "p" "a", Event.join "s2" "A" "p" "b"])
      (Event.hostSyncStateUpdate "s2" "A" "x" none)).2 = [] := by
  decide

/-- C4 (amended): a host-only operation from a non-host never reaches the
room and never terminates the connection (the state, sessions included, is
unchanged), but only `video_select` answers with a targeted `error_event`;
`video_control` and `host_sync_state_update` are dropped silently with no
message at all. -/
theorem C4_nonhost_rejection (st : ServerState) (sid r : String) (rd : RoomData)
    (hs : sid ∈ keysA st.sessions) (hr : lookupA st.rooms r = some rd)
    (hh : rd.hostSocketId ≠ sid) :
    (∀ v f, (step st (Event.videoSelect sid r v f)).2
        = [(sid, ServerMsg.errorEvent "Only the host can select a video.")] ∧
      (step st (Event.videoSelect sid r v f)).1 = st) ∧
    (∀ c, (step st (Event.videoControl sid r c)).2 = [] ∧
      (step st (Event.videoControl sid r c)).1 = st) ∧
    (∀ sd t, (step st (Event.hostSyncStateUpdate sid r sd t)).2 = [] ∧
      (step st (Event.hostSyncStateUpdate sid r sd t)).1 = st) := by
  refine ⟨?_, ?_, ?_⟩
  · intro v f
    constructor
    · simp only [step, if_pos hs, handleVideoSelect]
      rw [hr]
      dsimp only
      rw [if_neg hh]
    · simp only [step, if_pos hs]
      exact handleVideoSelect_fst_nonhost st sid r v f rd hr hh
  · intro c
    constructor
    · simp only [step, if_pos hs, handleVideoControl]
      rw [hr]
      dsimp only
      rw [if_neg hh]
    · simp only [step, if_pos hs]
      exact handleVideoControl_fst st sid r c
  · intro sd t
    constructor
    · simp only [step, if_pos hs, handleHostSyncStateUpdate]
      rw [hr]
      dsimp only
      rw [if_neg hh]
    · simp only [step, if_pos hs]
      exact handleHostSyncStateUpdate_fst st sid r sd t

/-- C4 witness: for the concrete non-host `s2` of room `A`, `video_select`
yields only the targeted `error_event` and `video_control` yields
nothing. -/
theorem C4_witness :
    (step (run [Event.connect "s1", Event.connect "s2",
      Event.join "s1" "A" "p" "a", Event.join "s2" "A" "p" "b"])
      (Event.videoSelect "s2" "A" "u" "f")).2
      = [("s2", ServerMsg.errorEvent "Only the host can select a video.")] ∧
    (step (run [Event.connect "s1", Event.connect "s2",
      Event.join "s1" "A" "p" "a", Event.join "s2" "A" "p" "b"])
      (Event.videoControl "s2" "A" "c")).2 = [] := by
  have h := C4_nonhost_rejection
    (run [Event.connect "s1", Event.connect "s2",
      Event.join "s1" "A" "p" "a", Event.join "s2" "A" "p" "b"])
    "s2" "A" ⟨[("s1", "a"), ("s2", "b")], "p", none, none, "s1"⟩
    (by decide) (by decide) (by decide)
  exact ⟨(h.1 "u" "f").1, (h.2.1 "c").1⟩

/-- C5: a join against an existing room with a mismatched password is
answered with `Invalid password.` alone — before any capacity
consideration — and the room record (users, host, password, video
descriptor) and the durable store are left untouched. -/
theorem C5_invalid_password (st : ServerState) (sid r p u : String) (rd : RoomData)
    (hs : sid ∈ keysA st.sessions) (hr : lookupA st.rooms r = some rd)
    (hp : rd.password ≠ p) :
    (step st (Event.join sid r p u)).2
      = [(sid, ServerMsg.joinError "Invalid password.")] ∧
    lookupA (step st (Event.join sid r p u)).1.rooms r = some rd ∧
    (step st (Event.join sid r p u)).1.files = st.files := by
  simp only [step, if_pos hs, handleJoinRoom]
  rw [hr, orElse_some]
  dsimp only
  rw [if_pos hp]
  exact ⟨rfl, hr, rfl⟩

/-- C5 witness: the wrong-password join against the *full* room `A` is
answered `Invalid password.` (not `Room is full.`) and changes nothing. -/
theorem C5_witness :
    (step (run [Event.connect "s1", Event.connect "s2", Event.connect "s3",
      Event.join "s1" "A" "p" "a", Event.join "s2" "A" "p" "b"])
      (Event.join "s3" "A" "wrong" "c")).2
      = [("s3", ServerMsg.joinError "Invalid password.")] ∧
    lookupA (step (run [Event.connect "s1", Event.connect "s2", Event.connect "s3",
      Event.join "s1" "A" "p" "a", Event.join "s2" "A" "p" "b"])
      (Event.join "s3" "A" "wrong" "c")).1.rooms "A"
      = some ⟨[("s1", "a"), ("s2", "b")], "p", none, none, "s1"⟩ := by
  have h := C5_invalid_password
    (run [Event.connect "s1", Event.connect "s2", Event.connect "s3",
      Event.join "s1" "A" "p" "a", Event.join "s2" "A" "p" "b"])
    "s3" "A" "wrong" "c" ⟨[("s1", "a"), ("s2", "b")], "p", none, none, "s1"⟩
    (by decide) (by decide) (by decide)
  exact ⟨h.1, h.2.1⟩

/-- C6, counterexample to the claim as stated: `s1` is the last remaining
member of room `A`; after `s1` joins room `B` its session is bound to `B`,
so its disconnect leaves both the registry entry and the durable record of
`A` in place. -/
theorem C6_counterexample :
    lookupA (run [Event.connect "s1", Event.join "s1" "A" "p" "a",
      Event.join "s1" "B" "q" "a", Event.disconnect "s1"]).sessions "s1"
      = none ∧
    lookupA (run [Event.connect "s1", Event.join "s1" "A" "p" "a",
      Event.join "s1" "B" "q" "a", Event.disconnect "s1"]).rooms "A"
      = some ⟨[("s1", "a")], "p", none, none, "s1"⟩ ∧
    lookupA (run [Event.connect "s1", Event.join "s1" "A" "p" "a",
      Event.join "s1" "B" "q" "a", Event.disconnect "s1"]).files "A"
      = some ⟨[("s1", "a")], "p", none, none, "s1"⟩ := by
  decide

/-- C6 (amended): when the last remaining member of a room disconnects
*while its session is still bound to that room*, both the registry entry
and the durable record are removed, and any later join with that room id
and any password takes the creation path: the caller becomes host of a
fresh room with the new password and a null video descriptor. -/
theorem C6_room_deletion_recreation (st : ServerState) (h : Reachable st)
    (sid r u : String) (rd : RoomData)
    (hcur : lookupA st.sessions sid = some (some r)) (hrne : r ≠ "")
    (hr : lookupA st.rooms r = some rd) (husers : rd.users = [(sid, u)]) :
    lookupA (step st (Event.disconnect sid)).1.rooms r = none ∧
    lookupA (step st (Event.disconnect sid)).1.files r = none ∧
    (∀ sid2 p2 u2, sid2 ∈ keysA (step st (Event.disconnect sid)).1.sessions →
      lookupA (step (step st (Event.disconnect sid)).1
          (Event.join sid2 r p2 u2)).1.rooms r
        = some ⟨[(sid2, u2)], p2, none, none, sid2⟩ ∧
      (step (step st (Event.disconnect sid)).1 (Event.join sid2 r p2 u2)).2
        = [(sid2, ServerMsg.roomJoined r true none none [u2])]) := by
  have hinv := inv_of_reachable st h
  have hs : sid ∈ keysA st.sessions := mem_keysA_of_lookupA _ _ _ hcur
  have he : eraseA rd.users sid = [] := by
    rw [husers]
    simp [eraseA]
  have hst1 : (step st (Event.disconnect sid)).1
      = { st with
          rooms := eraseA st.rooms r
          files := deleteRoomData st.files r
          sessions := eraseA st.sessions sid
          ioRooms := ioLeaveAll st.ioRooms sid } := by
    simp only [step, if_pos hs, handleDisconnect]
    rw [hcur, Option.getD_some]
    dsimp only
    rw [if_neg hrne]
    dsimp only
    rw [hr]
    dsimp only
    rw [he, if_pos rfl]
  have h1 : lookupA (step st (Event.disconnect sid)).1.rooms r = none := by
    rw [hst1]
    exact lookupA_eraseA_self st.rooms r hinv.roomsNodup
  have h2 : lookupA (step st (Event.disconnect sid)).1.files r = none := by
    rw [hst1]
    show lookupA (deleteRoomData st.files r) r = none
    unfold deleteRoomData
    rw [if_neg hrne]
    exact lookupA_eraseA_self st.files r hinv.filesNodup
  refine ⟨h1, h2, ?_⟩
  intro sid2 p2 u2 hs2
  have hinv1 := inv_step st (Event.disconnect sid) hinv
  rw [hst1] at h1 hs2 hinv1 ⊢
  simp only [step, if_pos hs2, handleJoinRoom]
  rw [joinRoom_resolve _ hinv1.fileSync r, h1]
  dsimp only
  rw [lookupA_setA_self]
  exact ⟨rfl, rfl⟩

/-- C6 witness: the sole member `s1` of room `A` disconnects with its
session bound to `A`; both records vanish and a rejoin under a different
password creates a fresh room owned by the newcomer. -/
theorem C6_witness :
    lookupA (step (run [Event.connect "s1", Event.join "s1" "A" "p" "a"])
      (Event.disconnect "s1")).1.rooms "A" = none ∧
    lookupA (step (run [Event.connect "s1", Event.join "s1" "A" "p" "a"])
      (Event.disconnect "s1")).1.files "A" = none ∧
    lookupA (step (step (run [Event.connect "s1", Event.connect "s2",
        Event.join "s1" "A" "p" "a"]) (Event.disconnect "s1")).1
      (Event.join "s2" "A" "other" "b")).1.rooms "A"
      = some ⟨[("s2", "b")], "other", none, none, "s2"⟩ := by
  have ha := C6_room_deletion_recreation
    (run [Event.connect "s1", Event.join "s1" "A" "p" "a"])
    ⟨[Event.connect "s1", Event.join "s1" "A" "p" "a"], rfl⟩
    "s1" "A" "a" ⟨[("s1", "a")], "p", none, none, "s1"⟩
    (by decide) (by decide) (by decide) (by decide)
  have hb := C6_room_deletion_recreation
    (run [Event.connect "s1", Event.connect "s2", Event.join "s1" "A" "p" "a"])
    ⟨[Event.connect "s1", Event.connect "s2", Event.join "s1" "A" "p" "a"], rfl⟩
    "s1" "A" "a" ⟨[("s1", "a")], "p", none, none, "s1"⟩
    (by decide) (by decide) (by decide) (by decide)
  exact ⟨ha.1, ha.2.1, (hb.2.2 "s2" "other" "b" (by decide)).1⟩

/-- C7: a correct-password join whose username is held by an existing
member under a different connection id (the only member with that
username), by a connection not itself in the room, replaces that member's
entry: the old connection id is gone, the new one is registered under the
same username, every other entry is untouched, and the host role moves to
the new connection exactly when the replaced connection held it. -/
theorem C7_username_takeover (st : ServerState) (h : Reachable st)
    (sid r u old : String) (rd : RoomData)
    (hs : sid ∈ keysA st.sessions) (hr : lookupA st.rooms r = some rd)
    (hsidnm : sid ∉ keysA rd.users)
    (hmem : (old, u) ∈ rd.users) (hold : old ≠ sid)
    (huniq : ∀ e ∈ rd.users, e.2 = u → e = (old, u)) :
    lookupA (step st (Event.join sid r rd.password u)).1.rooms r
      = some { rd with
          users := setA (eraseA rd.users old) sid u
          hostSocketId :=
            if rd.hostSocketId = old then sid else rd.hostSocketId } ∧
    lookupA (setA (eraseA rd.users old) sid u) sid = some u ∧
    old ∉ keysA (setA (eraseA rd.users old) sid u) ∧
    (∀ s, s ≠ old → s ≠ sid →
      lookupA (setA (eraseA rd.users old) sid u) s = lookupA rd.users s) := by
  have RI := (inv_of_reachable st h).room r rd hr
  have hfind : findExisting rd.users sid u = some (old, u) := by
    rw [findExisting]
    apply find_eq_of_unique _ _ _ hmem
    · simp
    · intro e he hp
      simp only [Bool.or_eq_true, beq_iff_eq] at hp
      rcases hp with hp | hp
      · exact absurd (hp ▸ mem_keysA_of_mem he) hsidnm
      · exact huniq e he hp
  refine ⟨?_, lookupA_setA_self _ sid u, ?_, ?_⟩
  · simp only [step, if_pos hs, handleJoinRoom]
    rw [hr, orElse_some]
    dsimp only
    rw [if_neg (fun hc : rd.password ≠ rd.password => hc rfl), hfind]
    dsimp only
    rw [if_pos (show (old, u).1 ≠ sid ∧ (old, u).2 = u from ⟨hold, rfl⟩)]
    rw [lookupA_setA_self]
  · intro hc
    rcases (mem_keysA_setA _ sid old u).1 hc with hc2 | hc2
    · exact not_mem_keysA_eraseA rd.users old RI.usersNodup hc2
    · exact hold hc2
  · intro s hsold hssid
    rw [lookupA_setA_ne _ sid s u hssid, lookupA_eraseA_ne _ old s hsold]

/-- C7 witness: `s2` joins room `A` under host `s1`'s username `a`; the
old entry is replaced and `s2` inherits the host role. -/
theorem C7_witness :
    lookupA (run [Event.connect "s1", Event.connect "s2",
      Event.join "s1" "A" "p" "a"]).rooms "A"
      = some ⟨[("s1", "a")], "p", none, none, "s1"⟩ ∧
    lookupA (step (run [Event.connect "s1", Event.connect "s2",
      Event.join "s1" "A" "p" "a"]) (Event.join "s2" "A" "p" "a")).1.rooms "A"
      = some ⟨[("s2", "a")], "p", none, none, "s2"⟩ := by
  refine ⟨by decide, ?_⟩
  exact (C7_username_takeover
    (run [Event.connect "s1", Event.connect "s2", Event.join "s1" "A" "p" "a"])
    ⟨[Event.connect "s1", Event.connect "s2", Event.join "s1" "A" "p" "a"], rfl⟩
    "s2" "A" "a" "s1" ⟨[("s1", "a")], "p", none, none, "s1"⟩
    (by decide) (by decide) (by decide) (by decide) (by decide) (by decide)).1

/-- C8, counterexample to the claim as stated: a `join_room` with an empty
username is admitted — the caller becomes host of room `A` registered under
username `""`; the server performs no username validation. -/
theorem C8_counterexample :
    lookupA (run [Event.connect "s1",
      Event.join "s1" "A" "p" ""]).rooms "A"
      = some ⟨[("s1", "")], "p", none, none, "s1"⟩ := by
  decide

/-- C8 (amended): the server applies no username constraint in
`join_room`; in particular an empty-username join to a fresh room id is
admitted like any other, creating the room with the caller as host
registered under the empty username. -/
theorem C8_no_username_validation (st : ServerState) (h : Reachable st)
    (sid r p : String) (hs : sid ∈ keysA st.sessions)
    (hnone : lookupA st.rooms r = none) :
    lookupA (step st (Event.join sid r p "")).1.rooms r
      = some ⟨[(sid, "")], p, none, none, sid⟩ ∧
    (step st (Event.join sid r p "")).2
      = [(sid, ServerMsg.roomJoined r true none none [""])] := by
  have hinv := inv_of_reachable st h
  simp only [step, if_pos hs, handleJoinRoom]
  rw [joinRoom_resolve _ hinv.fileSync r, hnone]
  dsimp only
  rw [lookupA_setA_self]
  exact ⟨rfl, rfl⟩

/-- C8 witness: the concrete empty-username join is admitted and answered
with a host `room_joined`. -/
theorem C8_witness :
    lookupA (step (run [Event.connect "s1"]) (Event.join "s1" "A" "p" "")).1.rooms "A"
      = some ⟨[("s1", "")], "p", none, none, "s1"⟩ ∧
    (step (run [Event.connect "s1"]) (Event.join "s1" "A" "p" "")).2
      = [("s1", ServerMsg.roomJoined "A" true none none [""])] :=
  C8_no_username_validation (run [Event.connect "s1"])
    ⟨[Event.connect "s1"], rfl⟩ "s1" "A" "p" (by decide) (by decide)

/-- C9: `applyState` on a live player is two-phase in program order — the
seek to the given time is the first command, the 150 ms settling delay
follows at position 2, and the play/pause assertion (play exactly when
`state.playing`) sits at position 3, after the delay; a play or pause
command occurs at no other position, so the assertion never precedes the
seek.  On a guest, `handleApplyHostSyncState` is exactly this application
(and a no-op for a host or a dead player ref). -/
theorem C9_applyState_two_phase (t : Rat) (p : Bool) :
    applyState false t p = [] ∧
    (applyState true t p).get? 0 = some (PlayerCmd.seekTo t) ∧
    (applyState true t p).get? 2 = some (PlayerCmd.settleTimeout 150) ∧
    (applyState true t p).get? 3
      = some (if p then PlayerCmd.play else PlayerCmd.pause) ∧
    (∀ i, ((applyState true t p).get? i = some PlayerCmd.play ∨
        (applyState true t p).get? i = some PlayerCmd.pause) → i = 3) ∧
    (∀ ready, handleApplyHostSyncState false ready t p = applyState ready t p) ∧
    (∀ ready, handleApplyHostSyncState true ready t p = []) := by
  cases p <;>
    refine ⟨rfl, rfl, rfl, rfl, ?_, fun ready => rfl, fun ready => rfl⟩ <;>
    intro i hi <;> rcases i with _|_|_|_|_|n <;> first
      | rfl
      | simp [applyState] at hi

/-- C9 witness: the concrete command sequence for `time = 7`,
`playing = true`. -/
theorem C9_witness :
    applyState true 7 true
      = [PlayerCmd.seekTo 7, PlayerCmd.setPlayedSeconds 7,
        PlayerCmd.settleTimeout 150, PlayerCmd.play,
        PlayerCmd.setIsPlaying true] ∧
    (applyState true 7 true).get? 0 = some (PlayerCmd.seekTo 7) ∧
    (applyState true 7 true).get? 3 = some PlayerCmd.play := by
  refine ⟨by decide, (C9_applyState_two_phase 7 true).2.1, ?_⟩
  have h := (C9_applyState_two_phase 7 true).2.2.2.1
  simpa using h

/-- C10: a `send_message` from a connected socket is fanned out, with the
envelope unchanged, to exactly the connections currently in the named
io-room — the sender and every still-connected member included — precisely
when the sender is a member of the registered room; a non-member's
`send_message` (including to an unregistered room) produces nothing, and
the state never changes. -/
theorem C10_send_message_relay (st : ServerState) (h : Reachable st)
    (sid r d : String) (hs : sid ∈ keysA st.sessions) :
    (step st (Event.sendMessage sid r d)).1 = st ∧
    (∀ rd, lookupA st.rooms r = some rd → sid ∈ keysA rd.users →
      (step st (Event.sendMessage sid r d)).2
        = (ioMembers st.ioRooms r).map (fun m => (m, ServerMsg.newMessage d)) ∧
      (sid, ServerMsg.newMessage d) ∈ (step st (Event.sendMessage sid r d)).2 ∧
      (∀ m, m ∈ keysA rd.users → m ∈ keysA st.sessions →
        (m, ServerMsg.newMessage d) ∈ (step st (Event.sendMessage sid r d)).2) ∧
      (∀ o ∈ (step st (Event.sendMessage sid r d)).2,
        o.2 = ServerMsg.newMessage d)) ∧
    ((∀ rd, lookupA st.rooms r = some rd → sid ∉ keysA rd.users) →
      (step st (Event.sendMessage sid r d)).2 = []) := by
  have hinv := inv_of_reachable st h
  refine ⟨?_, ?_, ?_⟩
  · simp only [step, if_pos hs]
    exact handleSendMessage_fst st sid r d
  · intro rd hr hm
    have hout : (step st (Event.sendMessage sid r d)).2
        = (ioMembers st.ioRooms r).map (fun m => (m, ServerMsg.newMessage d)) := by
      simp only [step, if_pos hs, handleSendMessage]
      rw [hr]
      dsimp only
      rw [if_pos (lookupA_isSome_of_mem rd.users sid hm)]
    refine ⟨hout, ?_, ?_, ?_⟩
    · rw [hout]
      exact List.mem_map_of_mem _ ((hinv.room r rd hr).memberIo sid hm hs)
    · intro m hm2 hconn
      rw [hout]
      exact List.mem_map_of_mem _ ((hinv.room r rd hr).memberIo m hm2 hconn)
    · intro o ho
      rw [hout] at ho
      obtain ⟨m, hmem2, heq⟩ := List.mem_map.1 ho
      rw [← heq]
  · intro hnot
    simp only [step, if_pos hs, handleSendMessage]
    cases hr : lookupA st.rooms r with
    | none => rfl
    | some rd =>
      dsimp only
      have hno : ¬(lookupA rd.users sid).isSome = true := by
        rw [lookupA_eq_none_of_not_mem rd.users sid (hnot rd hr)]
        simp
      rw [if_neg hno]

/-- C10 witness: in the concrete room `A` the member `s2`'s message reaches
both `s1` and `s2` unchanged; the connected non-member `s3`'s message
reaches nobody. -/
theorem C10_witness :
    (step (run [Event.connect "s1", Event.connect "s2",
      Event.join "s1" "A" "p" "a", Event.join "s2" "A" "p" "b"])
      (Event.sendMessage "s2" "A" "hello")).2
      = [("s1", ServerMsg.newMessage "hello"),
        ("s2", ServerMsg.newMessage "hello")] ∧
    (step (run [Event.connect "s1", Event.connect "s2", Event.connect "s3",
      Event.join "s1" "A" "p" "a", Event.join "s2" "A" "p" "b"])
      (Event.sendMessage "s3" "A" "hello")).2 = [] := by
  constructor
  · have h := ((C10_send_message_relay
      (run [Event.connect "s1", Event.connect "s2",
        Event.join "s1" "A" "p" "a", Event.join "s2" "A" "p" "b"])
      ⟨[Event.connect "s1", Event.connect "s2",
        Event.join "s1" "A" "p" "a", Event.join "s2" "A" "p" "b"], rfl⟩
      "s2" "A" "hello" (by decide)).2.1
      ⟨[("s1", "a"), ("s2", "b")], "p", none, none, "s1"⟩
      (by decide) (by decide)).1
    rw [h]
    decide
  · refine (C10_send_message_relay
      (run [Event.connect "s1", Event.connect "s2", Event.connect "s3",
        Event.join "s1" "A" "p" "a", Event.join "s2" "A" "p" "b"])
      ⟨[Event.connect "s1", Event.connect "s2", Event.connect "s3",
        Event.join "s1" "A" "p" "a", Event.join "s2" "A" "p" "b"], rfl⟩
      "s3" "A" "hello" (by decide)).2.2 ?_
    intro rd hr
    have hc : lookupA (run [Event.connect "s1", Event.connect "s2",
        Event.connect "s3", Event.join "s1" "A" "p" "a",
        Event.join "s2" "A" "p" "b"]).rooms "A"
        = some ⟨[("s1", "a"), ("s2", "b")], "p", none, none, "s1"⟩ := by
      decide
    rw [hc] at hr
    injection hr with hr
    subst hr
    decide

end SyncStream
